import Mathlib

/-!
# Verification of `generate.js` (codestudio-library-registry)

Shallow embedding of the registry generator in `src/generate.js`:

* raw Arduino index entries are grouped by name into packages
  (`groupLibraries`, source step 2),
* each package's version list is sorted with `compareSemver`
  (source step 3),
* packages are enriched with GitHub metadata fetched by
  `fetchGitHubData` (with rate-limit/404/exception handling) driven by
  `processInBatches` (source step 4),
* the final registry filters out archived / repository-less packages
  and sorts by stars descending, names tie-broken by
  `String.prototype.localeCompare` (source step 5).

JS `undefined`/`null` absence is modelled with `Option`; JS numbers
are modelled with `Nat`/`Int` (and `ℚ` for the fractional wait-time
arithmetic of the rate-limit handler); JS exceptions are modelled with
`Except`; the nondeterministic network is modelled as explicit oracles
(`FetchEnv`, and a per-repository fetch-outcome function for the
pipeline stages).  `Array.prototype.sort` with a consistent comparator
is modelled by the stable `List.insertionSort` on the comparator's
`≤ 0` relation; for a consistent comparator every stable sort produces
the same output as the (stable, since ES2019) JS sort.
-/

/-- `MAX_RETRIES` from the configuration section of `generate.js`. -/
def MAX_RETRIES : Nat := 3

/-- `CONCURRENT_REQUESTS` from the configuration section of `generate.js`. -/
def CONCURRENT_REQUESTS : Nat := 5

/-! ## Semantic version comparator (`compareSemver`, generate.js lines 71-88) -/

/-- Value of a non-empty digit string under `parseInt(·, 10)`. -/
def parseIntDigits (ds : List Char) : Nat :=
  ds.foldl (fun acc c => 10 * acc + (c.toNat - '0'.toNat)) 0

/-- `parseVersion` inside `compareSemver`: matches the anchored regex
`^(\d+)(?:\.(\d+))?(?:\.(\d+))?` and converts the captured groups with
`parseInt(·,10) || 0`; an unmatched string yields `[0, 0, 0]`.  A
missing optional group is `undefined`, and `parseInt(undefined) || 0`
is `0`, so missing components default to `0`. -/
def parseVersion (v : String) : Nat × Nat × Nat :=
  match v.data.span Char.isDigit with
  | ([], _) => (0, 0, 0)
  | (d1, rest) =>
    let major := parseIntDigits d1
    match rest with
    | '.' :: rest2 =>
      match rest2.span Char.isDigit with
      | ([], _) => (major, 0, 0)
      | (d2, rest3) =>
        let minor := parseIntDigits d2
        match rest3 with
        | '.' :: rest4 =>
          match rest4.span Char.isDigit with
          | ([], _) => (major, minor, 0)
          | (d3, _) => (major, minor, parseIntDigits d3)
        | _ => (major, minor, 0)
    | _ => (major, 0, 0)

/-- `compareSemver` (generate.js lines 71-88): negative when `a` parses to a
larger (newer) triple, so sorting with it yields newest-first. -/
def compareSemver (a b : String) : Int :=
  let pa := parseVersion a
  let pb := parseVersion b
  if pa.1 ≠ pb.1 then (pb.1 : Int) - pa.1
  else if pa.2.1 ≠ pb.2.1 then (pb.2.1 : Int) - pa.2.1
  else (pb.2.2 : Int) - pa.2.2

/-- Strict "newer than" on parsed version triples
(lexicographic on major, minor, patch). -/
def tripleGt (x y : Nat × Nat × Nat) : Prop :=
  y.1 < x.1 ∨ (x.1 = y.1 ∧ (y.2.1 < x.2.1 ∨ (x.2.1 = y.2.1 ∧ y.2.2 < x.2.2)))

instance (x y : Nat × Nat × Nat) : Decidable (tripleGt x y) := by
  unfold tripleGt; infer_instance

/-! ## Generic retry wrapper (`withRetry`, generate.js lines 46-61) -/

/-- Backoff delay (milliseconds) computed by `withRetry` after the given
(1-based, just failed) attempt: `Math.min(1000 * Math.pow(2, attempt), 10000)`. -/
def backoffDelay (attempt : Nat) : Nat := min (1000 * 2 ^ attempt) 10000

/-- Observable outcome of a `withRetry` run: the returned value or thrown
error (`Except.error none` models the `throw lastError` with `lastError`
still `undefined`, reachable only when `maxRetries = 0`), the number of
invocations of the wrapped operation, and the list of backoff delays slept. -/
structure RetryTrace (ε α : Type) where
  result : Except (Option ε) α
  calls : Nat
  delays : List Nat

/-- Loop body of `withRetry`, generate.js lines 48-59.  `f k` is the outcome
of the `k`-th invocation of the wrapped operation (the model of an impure
operation whose outcome may differ per call); `attempt` is the 1-based loop
counter, `remaining` the number of loop iterations left, `last` the current
`lastError`. -/
def withRetryGo (f : Nat → Except ε α) : Nat → Nat → Option ε → RetryTrace ε α
  | _, 0, last => ⟨.error last, 0, []⟩
  | attempt, remaining + 1, _ =>
    match f attempt with
    | .ok a => ⟨.ok a, 1, []⟩
    | .error e =>
      if remaining = 0 then ⟨.error (some e), 1, []⟩
      else
        ⟨(withRetryGo f (attempt + 1) remaining (some e)).result,
         (withRetryGo f (attempt + 1) remaining (some e)).calls + 1,
         backoffDelay attempt :: (withRetryGo f (attempt + 1) remaining (some e)).delays⟩

/-- `withRetry` (generate.js lines 46-61): run `fn` up to `maxRetries` times,
sleeping `backoffDelay attempt` between consecutive failures, throwing the
last error when all attempts fail. -/
def withRetry (f : Nat → Except ε α) (maxRetries : Nat) : RetryTrace ε α :=
  withRetryGo f 1 maxRetries none

/-! ## Model of `String.prototype.localeCompare`

`generate.js` line 270 breaks star-count ties with
`a.name.localeCompare(b.name)`.  Node's `localeCompare` uses the ICU
default-locale collator (ECMA-402), not code-unit order: characters are
compared case-insensitively first (primary level), and strings equal at
the primary level are ordered by case, lower case before upper case
(tertiary level).  We model exactly that for the ASCII range:
`localeCompare` compares the `toLower`-image of the strings
lexicographically, and breaks full primary ties by the sequence of case
weights. -/

/-- Three-way lexicographic comparison of `Nat` sequences. -/
def natLexCmp : List Nat → List Nat → Int
  | [], [] => 0
  | [], _ :: _ => -1
  | _ :: _, [] => 1
  | a :: as, b :: bs =>
    if a < b then -1 else if b < a then 1 else natLexCmp as bs

/-- Primary collation key: case-folded code points. -/
def primaryKey (s : String) : List Nat := s.data.map (fun c => c.toLower.toNat)

/-- Tertiary collation key: case weights, lower case before upper case. -/
def tertiaryKey (s : String) : List Nat :=
  s.data.map (fun c => if c.isUpper then 1 else 0)

/-- Model of `a.localeCompare(b)` under the default ICU collation
(restricted to the ASCII range): primary level first, then the case
(tertiary) level. -/
def localeCompare (a b : String) : Int :=
  let p := natLexCmp (primaryKey a) (primaryKey b)
  if p = 0 then natLexCmp (tertiaryKey a) (tertiaryKey b) else p

/-! ## URL parser (`parseGitHubUrl`, generate.js lines 64-68) -/

/-- A character of the regex class `[\w.-]` (JS `\w` is ASCII
`[A-Za-z0-9_]`). -/
def wordDotDash (c : Char) : Bool :=
  c.isAlpha || c.isDigit || c = '_' || c = '.' || c = '-'

/-- `{owner, repo}` pair extracted from a URL. -/
structure RepoIdentity where
  owner : String
  repo : String
deriving DecidableEq

/-- Try to match `github\.com[/:]([\w.-]+)\/([\w.-]+)` at the current
position: the literal `github.com`, one of `/` `:`, a maximal nonempty
run of `[\w.-]` (maximality is faithful because `/` is not in the
class, so the greedy `+` never backtracks), a literal `/`, and a second
nonempty run. -/
def matchGitHubAt (cs : List Char) : Option (List Char × List Char) :=
  match cs.dropPrefix? "github.com".data with
  | none => none
  | some rest =>
    match rest with
    | sep :: rest2 =>
      if sep = '/' ∨ sep = ':' then
        match rest2.span wordDotDash with
        | ([], _) => none
        | (own, rest3) =>
          match rest3 with
          | '/' :: rest4 =>
            match rest4.span wordDotDash with
            | ([], _) => none
            | (rep, _) => some (own, rep)
          | _ => none
      else none
    | [] => none

/-- `String.prototype.match` scans for the leftmost match: try
`matchGitHubAt` at each successive start position. -/
def scanGitHub : List Char → Option (List Char × List Char)
  | [] => none
  | c :: cs =>
    match matchGitHubAt (c :: cs) with
    | some r => some r
    | none => scanGitHub cs

/-- `repo.replace(/\.git$/, '')`: strip one trailing `.git`. -/
def stripDotGit (r : List Char) : List Char :=
  match r.dropSuffix? ".git".data with
  | some r' => r'
  | none => r

/-- `parseGitHubUrl` (generate.js lines 64-68): `null`/missing input and
non-matching strings yield `none`; otherwise the owner and (`.git`-stripped)
repo captures. -/
def parseGitHubUrl (url : Option String) : Option RepoIdentity :=
  match url with
  | none => none
  | some u =>
    if u = "" then none  -- JS: the empty string is falsy, `if (!url) return null`
    else
      match scanGitHub u.data with
      | none => none
      | some (own, rep) => some ⟨⟨own⟩, ⟨stripDotGit rep⟩⟩

/-! ## Data model

`Option` stands for a JS property that is absent / `undefined` / `null`
(the script only ever distinguishes these by truthiness or `??`, except
for the enrichment fields, where a present-but-`null` value is
distinguished from an absent property by the serializer; those fields
are two-level `Option (Option _)` where it matters). -/

/-- One raw entry of the Arduino `library_index.json` `libraries` array.
The index schema (spec §6) always carries a `version` string, which the
script copies verbatim and later feeds to `compareSemver`, so `version`
is modelled as `String`. -/
structure RawLib where
  name : Option String
  author : Option String := none
  maintainer : Option String := none
  sentence : Option String := none
  paragraph : Option String := none
  website : Option String := none
  repository : Option String := none
  category : Option String := none
  architectures : Option (List String) := none
  types : Option (List String) := none
  version : String := ""
  url : Option String := none
  archiveFileName : Option String := none
  size : Option Nat := none
  checksum : Option String := none
deriving DecidableEq

/-- The `versionInfo` projection built at generate.js lines 198-204. -/
structure VersionInfo where
  version : String
  url : Option String
  archiveFileName : Option String
  size : Option Nat
  checksum : Option String
deriving DecidableEq

/-- A grouped (and possibly enriched) library object, generate.js lines
208-221 and 245-251.  Enrichment fields start absent; `pushedAt`,
`githubDescription` and `license` are two-level so that a field set to a
`null` JSON value (kept by the serializer) stays distinguishable from an
absent one. -/
structure Package where
  name : String
  author : Option String
  maintainer : Option String
  sentence : Option String
  paragraph : Option String
  website : Option String
  category : Option String
  architectures : Option (List String)
  types : Option (List String)
  repository : Option String
  repoInfo : Option RepoIdentity
  versions : List VersionInfo
  stars : Option Int := none
  isArchived : Option Bool := none
  pushedAt : Option (Option String) := none
  openIssues : Option Int := none
  githubDescription : Option (Option String) := none
  license : Option (Option String) := none
  topics : Option (List String) := none
deriving DecidableEq

/-- JS truthiness of an optional string: `undefined`, `null` and `""` are
falsy. -/
def jsTruthy (s : Option String) : Bool :=
  match s with
  | none => false
  | some s => s ≠ ""

/-- The usable identifying name of a raw entry: `some n` iff the guard
`if (!lib || !lib.name)` at generate.js line 193 does NOT skip it. -/
def truthyName (l : RawLib) : Option String :=
  match l.name with
  | none => none
  | some n => if n = "" then none else some n

/-! ## Grouping stage (generate.js lines 190-233) -/

def mkVersionInfo (l : RawLib) : VersionInfo :=
  ⟨l.version, l.url, l.archiveFileName, l.size, l.checksum⟩

/-- The canonical repository URL string built at generate.js line 218. -/
def mkRepoUrl (ri : RepoIdentity) : String :=
  "https://github.com/" ++ ri.owner ++ "/" ++ ri.repo

/-- The fresh package stored by `librariesMap.set` (generate.js lines
207-221); `repoInfo` is derived from the website URL first, `||`-falling
back to the repository URL. -/
def mkPackage (n : String) (l : RawLib) : Package :=
  let repoInfo := (parseGitHubUrl l.website).orElse (fun _ => parseGitHubUrl l.repository)
  { name := n
    author := l.author
    maintainer := l.maintainer
    sentence := l.sentence
    paragraph := l.paragraph
    website := l.website
    category := l.category
    architectures := l.architectures
    types := l.types
    repository := repoInfo.map mkRepoUrl
    repoInfo := repoInfo
    versions := [mkVersionInfo l] }

/-- `librariesMap.get(lib.name).versions.push(versionInfo)`: append a
version record to the (first) package with the given name. -/
def addVersion (n : String) (v : VersionInfo) : List Package → List Package
  | [] => []
  | p :: ps =>
    if p.name = n then { p with versions := p.versions ++ [v] } :: ps
    else p :: addVersion n v ps

/-- One iteration of the grouping loop (generate.js lines 192-225) acting on
the insertion-ordered map contents. -/
def groupStep (m : List Package) (l : RawLib) : List Package :=
  match truthyName l with
  | none => m
  | some n =>
    if m.any (fun p => p.name = n) then addVersion n (mkVersionInfo l) m
    else m ++ [mkPackage n l]

/-- The grouping loop: fold the raw entry list, in original order, into the
insertion-ordered `librariesMap` (generate.js lines 190-227). -/
def groupLibraries (raw : List RawLib) : List Package :=
  raw.foldl groupStep []

/-- The version-sort comparator `(a, b) => compareSemver(a.version, b.version)`
as the `≤ 0` relation used by the stable sort model. -/
def semverLe (a b : VersionInfo) : Prop :=
  compareSemver a.version b.version ≤ 0

instance : DecidableRel semverLe := fun a b => Int.decLe (compareSemver a.version b.version) 0

/-- Step 3 (generate.js lines 231-233): sort each package's versions,
newest first. -/
def sortVersions (p : Package) : Package :=
  { p with versions := p.versions.insertionSort semverLe }

/-- `uniqueLibraries` after step 3: grouped packages, each with its version
history sorted by `compareSemver`. -/
def uniqueLibraries (raw : List RawLib) : List Package :=
  (groupLibraries raw).map sortVersions

/-! ## GitHub metadata fetch (`fetchGitHubData`, generate.js lines 91-147) -/

/-- The `license` sub-object of the GitHub repository JSON. -/
structure LicenseJson where
  spdx_id : Option String
deriving DecidableEq

/-- The fields of the GitHub repository JSON read by the script; `none`
models an absent or `null` JSON field (the script only reads them through
`??` / `?.`, which treat both alike). -/
structure RepoJson where
  stargazers_count : Option Int := none
  archived : Option Bool := none
  pushed_at : Option String := none
  open_issues_count : Option Int := none
  description : Option String := none
  license : Option LicenseJson := none
  topics : Option (List String) := none
deriving DecidableEq

/-- The object a successful `fetchGitHubData` resolves with.  The 404
branch builds `{stars: 0, isArchived: true, error: 'not_found'}`, leaving
every other property absent (`none` at the outer level). -/
structure GitHubData where
  stars : Int
  isArchived : Bool
  error : Option String := none
  pushedAt : Option (Option String) := none
  openIssues : Option Int := none
  description : Option (Option String) := none
  license : Option (Option String) := none
  topics : Option (List String) := none
deriving DecidableEq

/-- The not-found result of generate.js line 122. -/
def notFound404 : GitHubData :=
  { stars := 0, isArchived := true, error := some "not_found" }

/-- The success result of generate.js lines 130-138 (`??` defaults applied,
`license?.spdx_id ?? null` collapsed to its `String`-or-`null` value). -/
def mkGitHubData (j : RepoJson) : GitHubData :=
  { stars := j.stargazers_count.getD 0
    isArchived := j.archived.getD false
    error := none
    pushedAt := some j.pushed_at
    openIssues := some (j.open_issues_count.getD 0)
    description := some j.description
    license := some (match j.license with
      | none => none
      | some lic => lic.spdx_id)
    topics := some (j.topics.getD []) }

/-- Outcome of one attempted HTTP request of `fetchGitHubData`: either a
response (status, optional `x-ratelimit-reset` header value, and the JSON
body — `none` when `response.json()` would reject), or a rejection of the
`fetch` itself (`exn "AbortError"` is the timeout). -/
inductive HttpAttempt where
  | response (status : Nat) (reset : Option Int) (json : Option RepoJson)
  | exn (name : String)

/-- Network oracle for one `fetchGitHubData` call chain: the outcome of the
attempt with a given `retryCount`, and `Date.now()` (milliseconds) observed
during that attempt's rate-limit handling. -/
structure FetchEnv where
  attempts : Nat → HttpAttempt
  nowMs : Nat → Int

/-- `waitTimeSec` computed at generate.js lines 106-112 (exact rational
arithmetic in place of IEEE doubles): 60 seconds by default, else
`Math.max(0, (reset * 1000 - Date.now()) / 1000) + 1`. -/
def rateLimitWaitSec (reset : Option Int) (nowMs : Int) : ℚ :=
  match reset with
  | none => 60
  | some t => max 0 (((t * 1000 : Int) : ℚ) - (nowMs : ℚ)) / 1000 + 1

/-- `response.ok`: status in the 2xx range. -/
def statusOk (status : Nat) : Bool := 200 ≤ status && status < 300

/-- Result of the `try` block of `fetchGitHubData` for the attempt with
retry count `rc` (fuel decreases on the recursive rate-limit call;
`MAX_RETRIES + 1` fuel is enough since `rc` only grows to `MAX_RETRIES`).
`Except.error` is a thrown JS exception *inside* the `try`; alongside the
result we collect the list of slept rate-limit waits, in milliseconds
(`waitTimeSec * 1000`). -/
def fetchBody (env : FetchEnv) : Nat → Nat → Except String (Option GitHubData × List ℚ)
  | _, 0 => .ok (none, [])
  | rc, fuel + 1 =>
    match env.attempts rc with
    | .exn name => .error name
    | .response status reset json =>
      if status = 403 ∨ status = 429 then
        if MAX_RETRIES ≤ rc then .ok (none, [])
        else
          let w := rateLimitWaitSec reset (env.nowMs rc) * 1000
          let rec_ :=
            match fetchBody env (rc + 1) fuel with
            | .ok r => r
            | .error _ => (none, [])
          .ok (rec_.1, w :: rec_.2)
      else if status = 404 then .ok (some notFound404, [])
      else if ¬ statusOk status then .error "GitHub API error"
      else
        match json with
        | none => .error "invalid json"
        | some j => .ok (some (mkGitHubData j), [])

/-- `fetchGitHubData` (generate.js lines 91-147).  The return type is the
caller-visible contract of the JS promise: `Except.error` would be a
rejection.  The whole body sits in a `try` whose `catch` logs and returns
`null`, so the definition wraps `fetchBody` accordingly; the inner
recursive call's `catch` is applied inside `fetchBody` the same way. -/
def fetchGitHubData (env : FetchEnv) (repoInfo : Option RepoIdentity) :
    Except String (Option GitHubData × List ℚ) :=
  match repoInfo with
  | none => .ok (none, [])
  | some _ =>
    match fetchBody env 0 (MAX_RETRIES + 1) with
    | .ok r => .ok r
    | .error _ => .ok (none, [])

/-! ## Concurrent batching (`processInBatches`, generate.js lines 150-164) -/

/-- Batched loop of `processInBatches`: take `batchSize` items,
`Promise.all`-map the processor over them, append, continue with the rest.
The fuel argument bounds the iteration count (the JS loop advances
`i += batchSize`); `items.length` iterations always suffice for a positive
batch size. -/
def processBatchesGo (batchSize : Nat) (f : α → β) : Nat → List α → List β
  | 0, _ => []
  | _, [] => []
  | fuel + 1, items =>
    (items.take batchSize).map f ++ processBatchesGo batchSize f fuel (items.drop batchSize)

/-- `processInBatches` (generate.js lines 150-164), with a pure processor:
all concurrency is join-semantics (`Promise.all` of already-determined
per-item outcomes). -/
def processInBatches (items : List α) (batchSize : Nat) (f : α → β) : List β :=
  processBatchesGo batchSize f items.length items

/-! ## Enrichment (generate.js lines 238-259) -/

/-- Apply a fetched `githubData` object to a package (generate.js lines
245-251): every enrichment property is assigned; assigning a JS
`undefined` (an absent `GitHubData` field) leaves the property
observationally absent, hence `Option` passthrough. -/
def applyGitHubData (lib : Package) (g : GitHubData) : Package :=
  { lib with
    stars := some g.stars
    isArchived := some g.isArchived
    pushedAt := g.pushedAt
    openIssues := g.openIssues
    githubDescription := g.description
    license := g.license
    topics := g.topics }

/-- The per-package processor passed to `processInBatches` (generate.js
lines 241-258), with the per-repository fetch outcome abstracted as the
total function `fetch` (justified by `fetchGitHubData` never rejecting):
fetch when a repo identity exists, apply the data when some came back,
always delete `_repoInfo`, return the package. -/
def enrichOne (fetch : RepoIdentity → Option GitHubData) (lib : Package) : Package :=
  match lib.repoInfo with
  | some ri =>
    (match fetch ri with
      | some g => { applyGitHubData lib g with repoInfo := none }
      | none => { lib with repoInfo := none })
  | none => { lib with repoInfo := none }

/-- `enrichedLibraries` (generate.js lines 238-259): batched enrichment of
the grouped, version-sorted packages. -/
def enrichedLibraries (fetch : RepoIdentity → Option GitHubData) (raw : List RawLib) :
    List Package :=
  processInBatches (uniqueLibraries raw) CONCURRENT_REQUESTS (enrichOne fetch)

/-! ## Filter and sort (`finalRegistry`, generate.js lines 263-271) -/

/-- The filter predicate `lib => lib.repository && !lib.isArchived`
(JS truthiness on both operands). -/
def keepLib (lib : Package) : Bool :=
  jsTruthy lib.repository && !(lib.isArchived = some true : Bool)

/-- The sort comparator of generate.js lines 265-271: stars descending
(`??`-defaulting absent stars to 0), ties by `localeCompare` on names. -/
def cmpLibs (a b : Package) : Int :=
  let starsA := a.stars.getD 0
  let starsB := b.stars.getD 0
  if starsB ≠ starsA then starsB - starsA
  else localeCompare a.name b.name

/-- The comparator's `≤ 0` relation, used by the stable-sort model. -/
def libLe (a b : Package) : Prop := cmpLibs a b ≤ 0

instance : DecidableRel libLe := fun a b => Int.decLe (cmpLibs a b) 0

/-- `finalRegistry` (generate.js lines 263-271): filter, then sort. -/
def finalRegistry (libs : List Package) : List Package :=
  (libs.filter keepLib).insertionSort libLe

/-- The whole pipeline from raw index entries to the `libraries` array of
the output document (steps 2-5 of `generateRegistry`); the index download
(step 1) and the file write (step 6) are the external collaborators. -/
def generateRegistry (fetch : RepoIdentity → Option GitHubData) (raw : List RawLib) :
    List Package :=
  finalRegistry (enrichedLibraries fetch raw)

/-! ## Predicates used to state the claims -/

/-- The version records contributed by the raw entries bearing the (usable)
name `n`, in original order. -/
def versionsFor (raw : List RawLib) (n : String) : List VersionInfo :=
  (raw.filter (fun l => decide (truthyName l = some n))).map mkVersionInfo

/-- The names of the packages of a grouped map. -/
def pkgNames (m : List Package) : List String := m.map Package.name

/-- Is an HTTP attempt outcome a rate-limit response (status 403 or 429)? -/
def rateLimited (a : HttpAttempt) : Bool :=
  match a with
  | .response s _ _ => s = 403 ∨ s = 429
  | .exn _ => false

/-- The value the awaiting caller receives from `fetchGitHubData` (the
rejection arm is unreachable: `fetch_no_data_on_failure`). -/
def fetchResult (env : FetchEnv) (ri : RepoIdentity) : Option GitHubData :=
  match fetchGitHubData env (some ri) with
  | .ok (r, _) => r
  | .error _ => none

/-- The rate-limit sleeps (milliseconds) performed by one
`fetchGitHubData` call chain. -/
def fetchSleeps (env : FetchEnv) (ri : RepoIdentity) : List ℚ :=
  match fetchGitHubData env (some ri) with
  | .ok (_, s) => s
  | .error _ => []

/-- The code points of a string, in order. -/
def codePoints (s : String) : List Nat := s.data.map Char.toNat

/-- Case-sensitive lexicographic (code-point) order on strings. -/
def stringLexLe (a b : String) : Prop := natLexCmp (codePoints a) (codePoints b) ≤ 0

instance (a b : String) : Decidable (stringLexLe a b) :=
  Int.decLe (natLexCmp (codePoints a) (codePoints b)) 0

/-- C1's sortedness property as the claim states it: adjacent stars are
non-increasing and star-ties are broken by case-sensitive lexicographic
(code-point) order on names. -/
def sortedAsClaimed (l : List Package) : Prop :=
  ∀ i : Nat, ∀ hi : i + 1 < l.length,
    (l.get ⟨i + 1, hi⟩).stars.getD 0 ≤ (l.get ⟨i, Nat.lt_of_succ_lt hi⟩).stars.getD 0
    ∧ ((l.get ⟨i, Nat.lt_of_succ_lt hi⟩).stars.getD 0 = (l.get ⟨i + 1, hi⟩).stars.getD 0 →
        stringLexLe (l.get ⟨i, Nat.lt_of_succ_lt hi⟩).name (l.get ⟨i + 1, hi⟩).name)

/-- All seven enrichment fields absent (never enriched). -/
def enrichAbsent (p : Package) : Prop :=
  p.stars = none ∧ p.isArchived = none ∧ p.pushedAt = none ∧ p.openIssues = none
  ∧ p.githubDescription = none ∧ p.license = none ∧ p.topics = none

/-- All seven enrichment fields populated (successful fetch). -/
def enrichPresent (p : Package) : Prop :=
  p.stars ≠ none ∧ p.isArchived ≠ none ∧ p.pushedAt ≠ none ∧ p.openIssues ≠ none
  ∧ p.githubDescription ≠ none ∧ p.license ≠ none ∧ p.topics ≠ none

/-- The state left by applying the 404 result: only `stars` and
`isArchived` populated (with `0` / `true`), the other five fields absent. -/
def enrichNotFound (p : Package) : Prop :=
  p.stars = some 0 ∧ p.isArchived = some true ∧ p.pushedAt = none ∧ p.openIssues = none
  ∧ p.githubDescription = none ∧ p.license = none ∧ p.topics = none

/-- C4's invariant as the claim states it: all absent or all populated. -/
def allOrNothing (p : Package) : Prop := enrichAbsent p ∨ enrichPresent p

instance (p : Package) : Decidable (enrichAbsent p) := by
  unfold enrichAbsent; infer_instance

instance (p : Package) : Decidable (enrichPresent p) := by
  unfold enrichPresent; infer_instance

instance (p : Package) : Decidable (enrichNotFound p) := by
  unfold enrichNotFound; infer_instance

instance (p : Package) : Decidable (allOrNothing p) := by
  unfold allOrNothing; infer_instance

/-! ## Concrete inputs for witnesses and counterexamples -/

/-- A network in which every attempt answers HTTP 404. -/
def env404 : FetchEnv := ⟨fun _ => .response 404 none none, fun _ => 0⟩

/-- Per-repository fetch outcomes over the all-404 network. -/
def fetch404oracle (ri : RepoIdentity) : Option GitHubData := fetchResult env404 ri

/-- Constant per-repository fetch outcomes: always the 404 result. -/
def fetch404W (_ : RepoIdentity) : Option GitHubData := some notFound404

/-- A network in which every attempt is rate-limited with no reset header. -/
def envRL : FetchEnv := ⟨fun _ => .response 403 none none, fun _ => 0⟩

/-- A network in which every attempt is rate-limited, with a reset
timestamp of 100 s and clock at 50000 ms. -/
def envRLreset : FetchEnv := ⟨fun _ => .response 403 (some 100) none, fun _ => 50000⟩

/-- A network whose first attempt rejects (timeout abort). -/
def envAbort : FetchEnv := ⟨fun _ => .exn "AbortError", fun _ => 0⟩

/-- A repository JSON carrying one star and nothing else of note. -/
def star1Json : RepoJson := { stargazers_count := some 1 }

/-- Fetch outcomes: every repository successfully resolves to `star1Json`. -/
def fetchStar1 (_ : RepoIdentity) : Option GitHubData := some (mkGitHubData star1Json)

/-- A raw index entry named `Foo` hosted at `github.com/a/foo`. -/
def rawFoo : RawLib :=
  { name := some "Foo", website := some "https://github.com/a/foo", version := "1.0.0" }

/-- A raw index entry named `a` (lower case). -/
def rawA : RawLib :=
  { name := some "a", website := some "https://github.com/x/aa", version := "1.0.0" }

/-- A raw index entry named `B` (upper case). -/
def rawB : RawLib :=
  { name := some "B", website := some "https://github.com/x/bb", version := "1.0.0" }

/-- The grouped package of `rawFoo`. -/
def libFoo : Package := mkPackage "Foo" rawFoo

/-- `libFoo` after enrichment against the all-404 network. -/
def pkg404 : Package := enrichOne fetch404oracle (sortVersions libFoo)

/-- The repository identity of `rawFoo`. -/
def riFoo : RepoIdentity := ⟨"a", "foo"⟩

/-- A concrete operation for the retry-wrapper witness: fails on attempts
1 and 2, succeeds with 7 on attempt 3. -/
def f0 : Nat → Except String Nat := fun k => if k < 3 then .error (toString k) else .ok 7
/-! ### Comparator facts -/

theorem natLexCmp_neg_flip : ∀ a b : List Nat, natLexCmp a b = -natLexCmp b a := by
  intro a
  induction a with
  | nil => intro b; cases b <;> simp [natLexCmp]
  | cons x xs ih =>
    intro b
    cases b with
    | nil => simp [natLexCmp]
    | cons y ys =>
      by_cases hxy : x < y
      · have : ¬ y < x := by omega
        simp [natLexCmp, hxy, this]
      · by_cases hyx : y < x
        · simp [natLexCmp, hxy, hyx]
        · simp [natLexCmp, hxy, hyx, ih ys]

theorem natLexCmp_eq_zero : ∀ a b : List Nat, natLexCmp a b = 0 ↔ a = b := by
  intro a
  induction a with
  | nil => intro b; cases b <;> simp [natLexCmp]
  | cons x xs ih =>
    intro b
    cases b with
    | nil => simp [natLexCmp]
    | cons y ys =>
      by_cases hxy : x < y
      · simp [natLexCmp, hxy]; omega
      · by_cases hyx : y < x
        · simp [natLexCmp, hxy, hyx]; omega
        · have hxy' : x = y := by omega
          simp [natLexCmp, hxy, hyx, ih ys, hxy']

theorem natLexCmp_trans_neg :
    ∀ a b c : List Nat, natLexCmp a b < 0 → natLexCmp b c < 0 → natLexCmp a c < 0 := by
  intro a
  induction a with
  | nil =>
    intro b c hab hbc
    cases b with
    | nil => simpa using hbc
    | cons y ys =>
      cases c with
      | nil => simp [natLexCmp] at hbc
      | cons z zs => simp [natLexCmp]
  | cons x xs ih =>
    intro b c hab hbc
    cases b with
    | nil => simp [natLexCmp] at hab
    | cons y ys =>
      cases c with
      | nil => simp [natLexCmp] at hbc
      | cons z zs =>
        simp only [natLexCmp] at hab hbc ⊢
        by_cases hxy : x < y
        · -- x < y; from hbc, y ≤ z, hence x < z
          by_cases hyz : y < z
          · have : x < z := by omega
            simp [this]
          · by_cases hzy : z < y
            · simp [hyz, hzy] at hbc
            · have : x < z := by omega
              simp [this]
        · by_cases hyx : y < x
          · simp [hxy, hyx] at hab
          · have hxy' : x = y := by omega
            subst hxy'
            by_cases hxz : x < z
            · simp [hxz]
            · by_cases hzx : z < x
              · simp [hxz, hzx] at hbc
              · simp [hxy, hyx] at hab
                simp [hxz, hzx] at hbc ⊢
                exact ih ys zs hab hbc

theorem natLexCmp_le_trans {a b c : List Nat}
    (hab : natLexCmp a b ≤ 0) (hbc : natLexCmp b c ≤ 0) : natLexCmp a c ≤ 0 := by
  rcases lt_or_eq_of_le hab with hab' | hab'
  · rcases lt_or_eq_of_le hbc with hbc' | hbc'
    · exact le_of_lt (natLexCmp_trans_neg a b c hab' hbc')
    · have : b = c := (natLexCmp_eq_zero b c).1 hbc'
      subst this; exact le_of_lt hab'
  · have : a = b := (natLexCmp_eq_zero a b).1 hab'
    subst this; exact hbc

theorem localeCompare_neg_flip (a b : String) :
    localeCompare a b = -localeCompare b a := by
  unfold localeCompare
  rw [natLexCmp_neg_flip (primaryKey a), natLexCmp_neg_flip (tertiaryKey a)]
  by_cases h : natLexCmp (primaryKey b) (primaryKey a) = 0 <;> simp [h]

theorem localeCompare_le_total (a b : String) :
    localeCompare a b ≤ 0 ∨ localeCompare b a ≤ 0 := by
  rw [localeCompare_neg_flip a b]
  omega

theorem localeCompare_le_trans {a b c : String}
    (hab : localeCompare a b ≤ 0) (hbc : localeCompare b c ≤ 0) :
    localeCompare a c ≤ 0 := by
  unfold localeCompare at hab hbc ⊢
  by_cases h1 : natLexCmp (primaryKey a) (primaryKey b) = 0
  · have e1 : primaryKey a = primaryKey b := (natLexCmp_eq_zero _ _).1 h1
    by_cases h2 : natLexCmp (primaryKey b) (primaryKey c) = 0
    · have e2 : primaryKey b = primaryKey c := (natLexCmp_eq_zero _ _).1 h2
      have e3 : natLexCmp (primaryKey a) (primaryKey c) = 0 := by
        rw [e1, e2, natLexCmp_eq_zero]
      simp [h1, h2] at hab hbc
      simp [e3]
      exact natLexCmp_le_trans hab hbc
    · have e3 : natLexCmp (primaryKey a) (primaryKey c) =
          natLexCmp (primaryKey b) (primaryKey c) := by rw [e1]
      simp [h2, e3] at hbc ⊢
      exact hbc
  · by_cases h2 : natLexCmp (primaryKey b) (primaryKey c) = 0
    · have e2 : primaryKey b = primaryKey c := (natLexCmp_eq_zero _ _).1 h2
      have e3 : natLexCmp (primaryKey a) (primaryKey c) =
          natLexCmp (primaryKey a) (primaryKey b) := by rw [e2]
      simp [h1, e3] at hab ⊢
      exact hab
    · simp [h1, h2] at hab hbc
      have h3 : natLexCmp (primaryKey a) (primaryKey c) < 0 :=
        natLexCmp_trans_neg (primaryKey a) (primaryKey b) (primaryKey c)
          (by omega) (by omega)
      simp [show natLexCmp (primaryKey a) (primaryKey c) ≠ 0 by omega]
      omega


/-! ### Facts about `compareSemver` -/

theorem compareSemver_neg_flip (a b : String) :
    compareSemver a b = -compareSemver b a := by
  unfold compareSemver
  rcases parseVersion a with ⟨a1, a2, a3⟩
  rcases parseVersion b with ⟨b1, b2, b3⟩
  simp only
  split_ifs <;> omega

theorem compareSemver_lt_iff (a b : String) :
    compareSemver a b < 0 ↔ tripleGt (parseVersion a) (parseVersion b) := by
  unfold compareSemver tripleGt
  rcases parseVersion a with ⟨a1, a2, a3⟩
  rcases parseVersion b with ⟨b1, b2, b3⟩
  simp only
  split_ifs <;> omega

theorem compareSemver_eq_zero_iff (a b : String) :
    compareSemver a b = 0 ↔ parseVersion a = parseVersion b := by
  unfold compareSemver
  rcases parseVersion a with ⟨a1, a2, a3⟩
  rcases parseVersion b with ⟨b1, b2, b3⟩
  simp only [Prod.mk.injEq]
  split_ifs <;> omega

theorem compareSemver_le_iff (a b : String) :
    compareSemver a b ≤ 0 ↔
      tripleGt (parseVersion a) (parseVersion b) ∨ parseVersion a = parseVersion b := by
  constructor
  · intro h
    rcases lt_or_eq_of_le h with h' | h'
    · exact Or.inl ((compareSemver_lt_iff a b).1 h')
    · exact Or.inr ((compareSemver_eq_zero_iff a b).1 h')
  · rintro (h | h)
    · exact le_of_lt ((compareSemver_lt_iff a b).2 h)
    · exact le_of_eq ((compareSemver_eq_zero_iff a b).2 h)

theorem semverLe_total (a b : VersionInfo) : semverLe a b ∨ semverLe b a := by
  unfold semverLe
  rw [compareSemver_neg_flip a.version b.version]
  omega

theorem semverLe_trans (a b c : VersionInfo)
    (hab : semverLe a b) (hbc : semverLe b c) : semverLe a c := by
  unfold semverLe at hab hbc ⊢
  rw [compareSemver_le_iff] at hab hbc ⊢
  unfold tripleGt at hab hbc ⊢
  rcases hpa : parseVersion a.version with ⟨a1, a2, a3⟩
  rcases hpb : parseVersion b.version with ⟨b1, b2, b3⟩
  rcases hpc : parseVersion c.version with ⟨c1, c2, c3⟩
  rw [hpa, hpb] at hab
  rw [hpb, hpc] at hbc
  simp only [Prod.mk.injEq] at hab hbc ⊢
  omega

/-! ### Facts about `withRetry` -/

theorem withRetryGo_calls_le (f : Nat → Except ε α) :
    ∀ r a last, (withRetryGo f a r last).calls ≤ r := by
  intro r
  induction r with
  | zero => intro a last; simp [withRetryGo]
  | succ n ih =>
    intro a last
    simp only [withRetryGo]
    cases f a with
    | ok v => simp
    | error e =>
      by_cases hn : n = 0
      · simp [hn]
      · simpa [hn] using Nat.succ_le_succ (ih (a + 1) (some e))

theorem withRetryGo_first_success (f : Nat → Except ε α) :
    ∀ r a last k v, a ≤ k → k < a + r → f k = .ok v →
      (∀ j, a ≤ j → j < k → ∃ e, f j = .error e) →
      withRetryGo f a r last =
        ⟨.ok v, k - a + 1, (List.range (k - a)).map (fun t => backoffDelay (a + t))⟩ := by
  intro r
  induction r with
  | zero => intro a last k v hak hkr; omega
  | succ n ih =>
    intro a last k v hak hkr hok hfail
    by_cases hka : k = a
    · subst hka
      simp [withRetryGo, hok]
    · have hlt : a < k := by omega
      obtain ⟨e, he⟩ := hfail a (le_refl a) hlt
      have hn : n ≠ 0 := by intro h; omega
      rw [show n + 1 = n + 1 from rfl]
      simp only [withRetryGo, he, if_neg hn]
      rw [ih (a + 1) (some e) k v (by omega) (by omega) hok
        (fun j hj1 hj2 => hfail j (by omega) hj2)]
      simp only [RetryTrace.mk.injEq]
      refine ⟨by trivial, by omega, ?_⟩
      rw [show k - a = (k - (a + 1)) + 1 by omega, List.range_succ_eq_map]
      simp only [List.map_cons, List.map_map, Nat.add_zero]
      refine congrArg (backoffDelay a :: ·) (List.map_congr_left ?_)
      intro t ht
      simp only [Function.comp_apply]
      exact congrArg backoffDelay (by omega)

theorem withRetryGo_all_fail (f : Nat → Except ε α) :
    ∀ r a last, 1 ≤ r → (∀ j, a ≤ j → j < a + r → ∃ e, f j = .error e) →
      ∃ e, f (a + r - 1) = .error e ∧
        withRetryGo f a r last =
          ⟨.error (some e), r, (List.range (r - 1)).map (fun t => backoffDelay (a + t))⟩ := by
  intro r
  induction r with
  | zero => intro a last h; omega
  | succ n ih =>
    intro a last _ hfail
    by_cases hn : n = 0
    · subst hn
      obtain ⟨e, he⟩ := hfail a (le_refl a) (by omega)
      refine ⟨e, by simpa using he, ?_⟩
      simp [withRetryGo, he]
    · obtain ⟨e0, he0⟩ := hfail a (le_refl a) (by omega)
      obtain ⟨e, he, hgo⟩ := ih (a + 1) (some e0) (by omega)
        (fun j hj1 hj2 => hfail j (by omega) (by omega))
      refine ⟨e, by simpa [show a + 1 + n - 1 = a + (n + 1) - 1 by omega] using he, ?_⟩
      simp only [withRetryGo, he0, if_neg hn]
      rw [hgo]
      simp only [RetryTrace.mk.injEq]
      refine ⟨by trivial, by trivial, ?_⟩
      rw [show n + 1 - 1 = (n - 1) + 1 by omega, List.range_succ_eq_map]
      simp only [List.map_cons, List.map_map, Nat.add_zero]
      refine congrArg (backoffDelay a :: ·) (List.map_congr_left ?_)
      intro t ht
      simp only [Function.comp_apply]
      exact congrArg backoffDelay (by omega)

/-- **C6**: the generic retry wrapper `withRetry` invokes the wrapped
operation at most `maxRetries` times; when attempt `k ≤ maxRetries` is the
first to succeed, its value is returned after exactly `k` invocations,
having slept `min (1000 * 2 ^ attempt) 10000` milliseconds after each
failed attempt `attempt = 1, …, k - 1`; and when all `maxRetries ≥ 1`
attempts fail, the error of the final attempt is thrown to the caller. -/
theorem withRetry_spec (f : Nat → Except ε α) (m : Nat) :
    (withRetry f m).calls ≤ m
  ∧ (∀ k v, 1 ≤ k → k ≤ m → f k = .ok v → (∀ j, 1 ≤ j → j < k → ∃ e, f j = .error e) →
      withRetry f m =
        ⟨.ok v, k, (List.range (k - 1)).map (fun t => min (1000 * 2 ^ (1 + t)) 10000)⟩)
  ∧ (∀ e, 1 ≤ m → (∀ j, 1 ≤ j → j < m → ∃ e', f j = .error e') → f m = .error e →
      withRetry f m =
        ⟨.error (some e), m,
          (List.range (m - 1)).map (fun t => min (1000 * 2 ^ (1 + t)) 10000)⟩) := by
  refine ⟨withRetryGo_calls_le f m 1 none, ?_, ?_⟩
  · intro k v hk1 hkm hok hfail
    rw [withRetry, withRetryGo_first_success f m 1 none k v hk1 (by omega) hok hfail]
    simp only [RetryTrace.mk.injEq]
    refine ⟨by trivial, by omega, List.map_congr_left (fun t ht => by simp [backoffDelay])⟩
  · intro e hm hfail hlast
    obtain ⟨e', he', hgo⟩ := withRetryGo_all_fail f m 1 none hm
      (fun j hj1 hj2 => by
        by_cases hjm : j = m
        · exact ⟨e, hjm ▸ hlast⟩
        · exact hfail j hj1 (by omega))
    rw [show 1 + m - 1 = m by omega] at he'
    rw [hlast] at he'
    injection he' with hee
    subst hee
    rw [withRetry, hgo]
    simp only [RetryTrace.mk.injEq]
    exact ⟨by trivial, by trivial, List.map_congr_left (fun t ht => by simp [backoffDelay])⟩

/-- Witness for C6: the operation `f0` fails on attempts 1 and 2 and
succeeds on attempt 3; `withRetry` returns 7 after exactly 3 calls with
backoff sleeps 2000 ms and 4000 ms. -/
theorem withRetry_spec_witness :
    withRetry f0 3 = ⟨.ok 7, 3, [2000, 4000]⟩ := by
  have h := (withRetry_spec f0 3).2.1 3 7 (by omega) (by omega) (by simp [f0])
    (fun j _ hj => ⟨toString j, by simp [f0, hj]⟩)
  rw [h]
  simp only [RetryTrace.mk.injEq]
  refine ⟨by trivial, by trivial, by decide⟩

/-- **C8**: the semantic version comparator is total (it is a function on
all pairs of strings), orders strings descending by the parsed
`major.minor.patch` triple (negative exactly when `a` parses newer than
`b`, zero exactly on equal triples), parses an entirely unparseable
string (no leading digit) as `(0, 0, 0)` — which sorts last — and
defaults missing components to 0. -/
theorem compareSemver_spec :
    (∀ a b : String, compareSemver a b < 0 ↔ tripleGt (parseVersion a) (parseVersion b))
  ∧ (∀ a b : String, compareSemver a b = 0 ↔ parseVersion a = parseVersion b)
  ∧ (∀ a b : String, 0 < compareSemver a b ↔ tripleGt (parseVersion b) (parseVersion a))
  ∧ (∀ s : String, s.data.takeWhile Char.isDigit = [] → parseVersion s = (0, 0, 0))
  ∧ (∀ a b : String, parseVersion b = (0, 0, 0) → compareSemver a b ≤ 0)
  ∧ compareSemver "1.2" "1.2.0" = 0 ∧ compareSemver "3" "3.0.0" = 0 := by
  refine ⟨compareSemver_lt_iff, compareSemver_eq_zero_iff, ?_, ?_, ?_, by decide, by decide⟩
  · intro a b
    rw [show (0 : Int) < compareSemver a b ↔ compareSemver b a < 0 by
      rw [compareSemver_neg_flip a b]; omega]
    exact compareSemver_lt_iff b a
  · intro s h
    unfold parseVersion
    rw [List.span_eq_take_drop, h]
  · intro a b h
    rw [compareSemver_le_iff, h]
    unfold tripleGt
    rcases parseVersion a with ⟨a1, a2, a3⟩
    simp only [Prod.mk.injEq]
    omega

/-- Witness for C8: `"x.y"` has no leading digit, parses as `(0,0,0)` and
sorts last (non-positive comparator value against any string). -/
theorem compareSemver_spec_witness :
    parseVersion "x.y" = (0, 0, 0) ∧ compareSemver "0.0.1" "x.y" ≤ 0 :=
  ⟨compareSemver_spec.2.2.2.1 "x.y" (by decide),
   compareSemver_spec.2.2.2.2.1 "0.0.1" "x.y" (by decide)⟩

/-! ### Facts about `fetchGitHubData` -/

theorem fetchBody_rateLimited_step (env : FetchEnv) (rc fuel : Nat) (status : Nat)
    (reset : Option Int) (json : Option RepoJson)
    (h0 : env.attempts rc = .response status reset json)
    (hrl : status = 403 ∨ status = 429) (hrc : ¬ MAX_RETRIES ≤ rc) :
    ∃ rest : Option GitHubData × List ℚ,
      fetchBody env rc (fuel + 1) =
        .ok (rest.1, rateLimitWaitSec reset (env.nowMs rc) * 1000 :: rest.2) := by
  refine ⟨(match fetchBody env (rc + 1) fuel with
    | .ok r => r
    | .error _ => (none, [])), ?_⟩
  simp only [fetchBody, h0]
  rw [if_pos hrl, if_neg hrc]

theorem fetchBody_rateLimited_none (env : FetchEnv)
    (hk : ∀ k, rateLimited (env.attempts k) = true) :
    ∀ fuel rc, ∃ sleeps, fetchBody env rc fuel = .ok (none, sleeps) := by
  intro fuel
  induction fuel with
  | zero => intro rc; exact ⟨[], rfl⟩
  | succ n ih =>
    intro rc
    have hrl := hk rc
    cases h : env.attempts rc with
    | exn nm => rw [h] at hrl; simp [rateLimited] at hrl
    | response s r j =>
      rw [h] at hrl
      simp only [rateLimited, decide_eq_true_eq] at hrl
      by_cases hrc : MAX_RETRIES ≤ rc
      · refine ⟨[], ?_⟩
        simp only [fetchBody, h]
        rw [if_pos hrl, if_pos hrc]
      · obtain ⟨ss, hss⟩ := ih (rc + 1)
        refine ⟨rateLimitWaitSec r (env.nowMs rc) * 1000 :: ss, ?_⟩
        simp only [fetchBody, h]
        rw [if_pos hrl, if_neg hrc, hss]

theorem fetchBody_404 (env : FetchEnv) (rc fuel : Nat) (reset : Option Int)
    (json : Option RepoJson) (h0 : env.attempts rc = .response 404 reset json) :
    fetchBody env rc (fuel + 1) = .ok (some notFound404, []) := by
  simp only [fetchBody, h0]
  simp

theorem fetchBody_exn (env : FetchEnv) (rc fuel : Nat) (name : String)
    (h0 : env.attempts rc = .exn name) :
    fetchBody env rc (fuel + 1) = .error name := by
  simp only [fetchBody, h0]

theorem fetchBody_badStatus (env : FetchEnv) (rc fuel : Nat) (status : Nat)
    (reset : Option Int) (json : Option RepoJson)
    (h0 : env.attempts rc = .response status reset json)
    (h403 : status ≠ 403) (h429 : status ≠ 429) (h404 : status ≠ 404)
    (hok : statusOk status = false) :
    fetchBody env rc (fuel + 1) = .error "GitHub API error" := by
  simp only [fetchBody, h0]
  rw [if_neg (by omega), if_neg h404, if_pos (by simp [hok])]

/-- **C7**: on a rate-limit response the wait before the retry is
`max 0 (T·1000 − now)` milliseconds plus the fixed 1000 ms margin when the
reset timestamp `T` (seconds) is supplied, and the fixed 60 s default
otherwise; the first sleep of a `fetchGitHubData` chain whose first
attempt is rate-limited is exactly `rateLimitWaitSec reset now * 1000`. -/
theorem rateLimitWait_spec :
    (∀ T now : Int, rateLimitWaitSec (some T) now * 1000 = max 0 ((T * 1000 : ℚ) - now) + 1000)
  ∧ (∀ now : Int, rateLimitWaitSec none now * 1000 = 60000)
  ∧ (∀ env ri status reset json, env.attempts 0 = .response status reset json →
      status = 403 ∨ status = 429 →
      (fetchSleeps env ri).head? = some (rateLimitWaitSec reset (env.nowMs 0) * 1000)) := by
  refine ⟨?_, ?_, ?_⟩
  · intro T now
    unfold rateLimitWaitSec
    rw [add_mul, div_mul_cancel₀ _ (by norm_num : (1000 : ℚ) ≠ 0)]
    push_cast
    norm_num
  · intro now
    unfold rateLimitWaitSec
    norm_num
  · intro env ri status reset json h0 hrl
    obtain ⟨rest, hbody⟩ :=
      fetchBody_rateLimited_step env 0 MAX_RETRIES status reset json h0 hrl (by simp [MAX_RETRIES])
    unfold fetchSleeps fetchGitHubData
    rw [hbody]
    rfl

/-- Witness for C7: reset timestamp 100 s with the clock at 50000 ms gives
a 51 s sleep; and over the all-rate-limited network `envRLreset` the first
recorded sleep is that value. -/
theorem rateLimitWait_spec_witness :
    rateLimitWaitSec (some 100) 50000 * 1000 = max 0 ((100 * 1000 : ℚ) - 50000) + 1000
  ∧ rateLimitWaitSec none 0 * 1000 = 60000
  ∧ (fetchSleeps envRLreset riFoo).head? =
      some (rateLimitWaitSec (some 100) (envRLreset.nowMs 0) * 1000) :=
  ⟨rateLimitWait_spec.1 100 50000, rateLimitWait_spec.2.1 0,
   rateLimitWait_spec.2.2 envRLreset riFoo 403 (some 100) none rfl (Or.inl rfl)⟩

/-- **C5**: `fetchGitHubData` never rejects — for every repository identity
and every network behavior it resolves (`isOk`); in particular exhausted
rate-limit retries, a transport exception or timeout on the first attempt,
and any non-success status other than 404 all yield the recoverable "no
data" (`none`) result rather than an error. -/
theorem fetchGitHubData_no_data_on_failure :
    (∀ env ri, (fetchGitHubData env ri).isOk = true)
  ∧ (∀ env ri, (∀ k, rateLimited (env.attempts k) = true) → fetchResult env ri = none)
  ∧ (∀ env ri name, env.attempts 0 = .exn name →
      fetchResult env ri = none ∧ fetchSleeps env ri = [])
  ∧ (∀ env ri status reset json, env.attempts 0 = .response status reset json →
      status ≠ 403 → status ≠ 429 → status ≠ 404 → statusOk status = false →
      fetchResult env ri = none ∧ fetchSleeps env ri = []) := by
  refine ⟨?_, ?_, ?_, ?_⟩
  · intro env ri
    unfold fetchGitHubData
    cases ri with
    | none => rfl
    | some ri =>
      cases h : fetchBody env 0 (MAX_RETRIES + 1) with
      | ok r => rfl
      | error e => rfl
  · intro env ri hk
    obtain ⟨sleeps, h⟩ := fetchBody_rateLimited_none env hk (MAX_RETRIES + 1) 0
    unfold fetchResult fetchGitHubData
    rw [h]
  · intro env ri name h0
    have h := fetchBody_exn env 0 MAX_RETRIES name h0
    unfold fetchResult fetchSleeps fetchGitHubData
    rw [h]
    exact ⟨rfl, rfl⟩
  · intro env ri status reset json h0 h403 h429 h404 hok
    have h := fetchBody_badStatus env 0 MAX_RETRIES status reset json h0 h403 h429 h404 hok
    unfold fetchResult fetchSleeps fetchGitHubData
    rw [h]
    exact ⟨rfl, rfl⟩

/-- Witness for C5: over the always-rate-limited network `envRL` the fetch
resolves with no data, and over the aborting network `envAbort` it
resolves with no data and no sleeps. -/
theorem fetchGitHubData_no_data_witness :
    (fetchGitHubData envRL (some riFoo)).isOk = true
  ∧ fetchResult envRL riFoo = none
  ∧ fetchResult envAbort riFoo = none ∧ fetchSleeps envAbort riFoo = [] :=
  ⟨fetchGitHubData_no_data_on_failure.1 envRL (some riFoo),
   fetchGitHubData_no_data_on_failure.2.1 envRL riFoo (fun _ => rfl),
   (fetchGitHubData_no_data_on_failure.2.2.1 envAbort riFoo "AbortError" rfl).1,
   (fetchGitHubData_no_data_on_failure.2.2.1 envAbort riFoo "AbortError" rfl).2⟩

/-- **C3**: a 404 response makes `fetchGitHubData` resolve (not reject)
with the enrichment result `{stars: 0, isArchived: true}`; a package
enriched with that result carries `isArchived = some true`, and no package
with `isArchived = some true` survives the filter stage into the final
sorted registry. -/
theorem notFound_handling_spec :
    (∀ env ri reset json, env.attempts 0 = .response 404 reset json →
        fetchGitHubData env (some ri) = .ok (some notFound404, []))
  ∧ notFound404.stars = 0 ∧ notFound404.isArchived = true
  ∧ (∀ fetch lib ri, lib.repoInfo = some ri → fetch ri = some notFound404 →
        (enrichOne fetch lib).isArchived = some true)
  ∧ (∀ (libs : List Package) (p : Package),
        p.isArchived = some true → p ∉ finalRegistry libs) := by
  refine ⟨?_, rfl, rfl, ?_, ?_⟩
  · intro env ri reset json h0
    have h := fetchBody_404 env 0 MAX_RETRIES reset json h0
    unfold fetchGitHubData
    rw [h]
  · intro fetch lib ri hri hfetch
    simp only [enrichOne, hri, hfetch]
    rfl
  · intro libs p harch hmem
    unfold finalRegistry at hmem
    rw [(List.perm_insertionSort libLe _).mem_iff, List.mem_filter] at hmem
    have hkeep := hmem.2
    unfold keepLib at hkeep
    rw [harch] at hkeep
    simp at hkeep

/-- Witness for C3: over the all-404 network the fetch of `a/foo` resolves
with the not-found result; enriching `libFoo` with it marks it archived;
and the archived `pkg404` is excluded from the registry built from it. -/
theorem notFound_handling_witness :
    fetchGitHubData env404 (some riFoo) = .ok (some notFound404, [])
  ∧ (enrichOne fetch404oracle libFoo).isArchived = some true
  ∧ pkg404 ∉ finalRegistry [pkg404] :=
  ⟨notFound_handling_spec.1 env404 riFoo none none rfl,
   notFound_handling_spec.2.2.2.1 fetch404oracle libFoo riFoo (by decide) (by decide),
   notFound_handling_spec.2.2.2.2 [pkg404] pkg404 (by decide)⟩

/-! ### Facts about `processInBatches` -/

theorem processBatchesGo_eq_map {α β : Type} (batchSize : Nat) (hb : 0 < batchSize)
    (f : α → β) : ∀ fuel items, items.length ≤ fuel →
      processBatchesGo batchSize f fuel items = items.map f := by
  intro fuel
  induction fuel with
  | zero =>
    intro items h
    have : items = [] := List.eq_nil_of_length_eq_zero (by omega)
    subst this; rfl
  | succ n ih =>
    intro items h
    cases items with
    | nil => rfl
    | cons x xs =>
      simp only [processBatchesGo]
      simp only [List.length_cons] at h
      rw [ih _ (by simp only [List.length_drop, List.length_cons]; omega)]
      rw [← List.map_append, List.take_append_drop]

theorem processInBatches_eq_map {α β : Type} (items : List α) (batchSize : Nat)
    (hb : 0 < batchSize) (f : α → β) :
    processInBatches items batchSize f = items.map f := by
  unfold processInBatches
  exact processBatchesGo_eq_map batchSize hb f items.length items (le_refl _)

/-- **C10**: batched enrichment with batch size `CONCURRENT_REQUESTS = 5`
yields exactly one output per input package, in original order
(`processInBatches = map`); the package at position `i` is enriched
exactly as it would be in isolation, and its outcome is unchanged under
any variation of the fetch outcomes of every other repository (two fetch
oracles that agree on the package's own repository identity give it
identical results). -/
theorem batch_isolation_spec (fetch1 fetch2 : RepoIdentity → Option GitHubData)
    (libs : List Package) (i : Nat) (lib : Package)
    (hget : libs[i]? = some lib)
    (hagree : ∀ ri, lib.repoInfo = some ri → fetch1 ri = fetch2 ri) :
    (processInBatches libs CONCURRENT_REQUESTS (enrichOne fetch1))[i]? =
      some (enrichOne fetch1 lib)
  ∧ enrichOne fetch1 lib = enrichOne fetch2 lib
  ∧ processInBatches libs CONCURRENT_REQUESTS (enrichOne fetch1) =
      libs.map (enrichOne fetch1) := by
  have hmap : ∀ g : Package → Package,
      processInBatches libs CONCURRENT_REQUESTS g = libs.map g := fun g =>
    processInBatches_eq_map libs CONCURRENT_REQUESTS (by norm_num [CONCURRENT_REQUESTS]) g
  have heq : enrichOne fetch1 lib = enrichOne fetch2 lib := by
    cases h : lib.repoInfo with
    | none => simp only [enrichOne, h]
    | some ri => simp only [enrichOne, h, hagree ri h]
  refine ⟨?_, heq, hmap _⟩
  rw [hmap, List.getElem?_map, hget]
  rfl

/-- Witness for C10: over a one-package list, batched enrichment equals the
map, position 0 gets `libFoo`'s own enrichment, and replacing the
`fetch404oracle` network outcome by the literal 404 result everywhere else
does not change it. -/
theorem batch_isolation_witness :
    (processInBatches [libFoo] CONCURRENT_REQUESTS (enrichOne fetch404oracle))[0]? =
      some (enrichOne fetch404oracle libFoo)
  ∧ enrichOne fetch404oracle libFoo = enrichOne fetch404W libFoo
  ∧ processInBatches [libFoo] CONCURRENT_REQUESTS (enrichOne fetch404oracle) =
      [libFoo].map (enrichOne fetch404oracle) :=
  batch_isolation_spec fetch404oracle fetch404W [libFoo] 0 libFoo rfl (fun _ _ => rfl)

/-! ### Facts about the grouping stage -/

theorem addVersion_names (n : String) (v : VersionInfo) :
    ∀ m : List Package, pkgNames (addVersion n v m) = pkgNames m := by
  intro m
  induction m with
  | nil => rfl
  | cons q m ih =>
    by_cases hq : q.name = n
    · simp [addVersion, hq, pkgNames]
    · simp only [addVersion, if_neg hq]
      simp only [pkgNames, List.map_cons] at ih ⊢
      rw [ih]

theorem mem_addVersion (n : String) (v : VersionInfo) :
    ∀ m p, p ∈ addVersion n v m →
      ∃ q ∈ m, p = q ∨ p = { q with versions := q.versions ++ [v] } := by
  intro m
  induction m with
  | nil => intro p hp; cases hp
  | cons q m ih =>
    intro p hp
    by_cases hq : q.name = n
    · simp only [addVersion, if_pos hq, List.mem_cons] at hp
      rcases hp with rfl | hp
      · exact ⟨q, List.mem_cons_self q m, Or.inr rfl⟩
      · exact ⟨p, List.mem_cons_of_mem q hp, Or.inl rfl⟩
    · simp only [addVersion, if_neg hq, List.mem_cons] at hp
      rcases hp with rfl | hp
      · exact ⟨p, List.mem_cons_self p m, Or.inl rfl⟩
      · obtain ⟨q', hq', hor⟩ := ih p hp
        exact ⟨q', List.mem_cons_of_mem q hq', hor⟩

theorem addVersion_eq_map (n : String) (v : VersionInfo) :
    ∀ m : List Package, (pkgNames m).Nodup →
      addVersion n v m =
        m.map (fun p => if p.name = n then { p with versions := p.versions ++ [v] } else p) := by
  intro m
  induction m with
  | nil => intro _; rfl
  | cons q m ih =>
    intro hnodup
    simp only [pkgNames, List.map_cons, List.nodup_cons] at hnodup
    by_cases hq : q.name = n
    · simp only [addVersion, if_pos hq, List.map_cons, if_pos hq]
      refine congrArg _ ?_
      have : ∀ p ∈ m, (if p.name = n then { p with versions := p.versions ++ [v] } else p) = p := by
        intro p hp
        rw [if_neg]
        intro hpn
        apply hnodup.1
        rw [hq, ← hpn]
        exact List.mem_map_of_mem Package.name hp
      rw [List.map_congr_left this, List.map_id']
    · simp only [addVersion, if_neg hq, List.map_cons, if_neg hq]
      exact congrArg _ (ih hnodup.2)

theorem any_name_iff (m : List Package) (n : String) :
    m.any (fun p => p.name = n) = true ↔ n ∈ pkgNames m := by
  rw [List.any_eq_true]
  unfold pkgNames
  constructor
  · rintro ⟨p, hp, hname⟩
    rw [decide_eq_true_eq] at hname
    exact hname ▸ List.mem_map_of_mem Package.name hp
  · intro h
    obtain ⟨p, hp, hname⟩ := List.mem_map.1 h
    exact ⟨p, hp, by rw [decide_eq_true_eq, hname]⟩

theorem groupLibraries_char : ∀ raw : List RawLib,
    (pkgNames (groupLibraries raw)).Nodup
  ∧ (∀ n, n ∈ pkgNames (groupLibraries raw) ↔ ∃ l ∈ raw, truthyName l = some n)
  ∧ (∀ p ∈ groupLibraries raw, p.versions = versionsFor raw p.name) := by
  intro raw
  induction raw using List.reverseRecOn with
  | nil => exact ⟨List.nodup_nil, by simp [groupLibraries, pkgNames], by simp [groupLibraries]⟩
  | append_singleton raw l ih =>
    obtain ⟨ihn, ihm, ihv⟩ := ih
    have hfold : groupLibraries (raw ++ [l]) = groupStep (groupLibraries raw) l := by
      unfold groupLibraries
      rw [List.foldl_append]
      rfl
    have hfilter_skip : ∀ n', truthyName l ≠ some n' →
        versionsFor (raw ++ [l]) n' = versionsFor raw n' := by
      intro n' hne
      unfold versionsFor
      rw [List.filter_append]
      have : List.filter (fun l' => decide (truthyName l' = some n')) [l] = [] := by
        simp [hne]
      rw [this, List.append_nil]
    cases htn : truthyName l with
    | none =>
      have hstep : groupLibraries (raw ++ [l]) = groupLibraries raw := by
        rw [hfold]; simp only [groupStep, htn]
      rw [hstep]
      refine ⟨ihn, ?_, ?_⟩
      · intro n
        rw [ihm n]
        constructor
        · rintro ⟨l', hl', h⟩
          exact ⟨l', List.mem_append_left _ hl', h⟩
        · rintro ⟨l', hl', h⟩
          rcases List.mem_append.1 hl' with h1 | h1
          · exact ⟨l', h1, h⟩
          · have heq : l' = l := by simpa using h1
            rw [heq, htn] at h
            cases h
      · intro p hp
        rw [ihv p hp, ← hfilter_skip p.name (by rw [htn]; intro h; cases h)]
    | some n =>
      by_cases hmem : (groupLibraries raw).any (fun p => p.name = n) = true
      · have hstep : groupLibraries (raw ++ [l]) =
            addVersion n (mkVersionInfo l) (groupLibraries raw) := by
          rw [hfold]; unfold groupStep; rw [htn]; exact if_pos hmem
        have hmap := addVersion_eq_map n (mkVersionInfo l) (groupLibraries raw) ihn
        have hnames : pkgNames (groupLibraries (raw ++ [l])) = pkgNames (groupLibraries raw) := by
          rw [hstep, addVersion_names]
        refine ⟨by rw [hnames]; exact ihn, ?_, ?_⟩
        · intro n'
          rw [hnames, ihm n']
          constructor
          · rintro ⟨l', hl', h⟩
            exact ⟨l', List.mem_append_left _ hl', h⟩
          · rintro ⟨l', hl', h⟩
            rcases List.mem_append.1 hl' with h1 | h1
            · exact ⟨l', h1, h⟩
            · have heq : l' = l := by simpa using h1
              rw [heq, htn] at h
              have hn' : n' = n := by cases h; rfl
              rw [hn']
              exact (ihm n).1 ((any_name_iff _ n).1 hmem)
        · intro p hp
          rw [hstep, hmap] at hp
          obtain ⟨q, hq, rfl⟩ := List.mem_map.1 hp
          by_cases hqn : q.name = n
          · simp only [if_pos hqn]
            show q.versions ++ [mkVersionInfo l] = versionsFor (raw ++ [l]) q.name
            rw [ihv q hq]
            unfold versionsFor
            rw [List.filter_append]
            have : List.filter (fun l' => decide (truthyName l' = some q.name)) [l] = [l] := by
              simp [htn, hqn]
            rw [this]
            simp
          · simp only [if_neg hqn]
            rw [ihv q hq, ← hfilter_skip q.name (by rw [htn]; intro h; cases h; exact hqn rfl)]
      · have hstep : groupLibraries (raw ++ [l]) =
            groupLibraries raw ++ [mkPackage n l] := by
          rw [hfold]; unfold groupStep; rw [htn]; exact if_neg hmem
        have hnmem : n ∉ pkgNames (groupLibraries raw) := by
          intro h
          exact hmem ((any_name_iff _ n).2 h)
        have hnames : pkgNames (groupLibraries (raw ++ [l])) =
            pkgNames (groupLibraries raw) ++ [n] := by
          rw [hstep]
          unfold pkgNames
          rw [List.map_append]
          rfl
        refine ⟨?_, ?_, ?_⟩
        · rw [hnames, List.nodup_append]
          refine ⟨ihn, List.nodup_singleton n, ?_⟩
          intro x hx hx'
          have hxn : x = n := by simpa using hx'
          rw [hxn] at hx
          exact hnmem hx
        · intro n'
          rw [hnames]
          rw [List.mem_append]
          constructor
          · rintro (h | h)
            · obtain ⟨l', hl', hh⟩ := (ihm n').1 h
              exact ⟨l', List.mem_append_left _ hl', hh⟩
            · have : n' = n := by simpa using h
              exact ⟨l, List.mem_append_right _ (List.mem_singleton_self l), by rw [htn, this]⟩
          · rintro ⟨l', hl', hh⟩
            rcases List.mem_append.1 hl' with h1 | h1
            · exact Or.inl ((ihm n').2 ⟨l', h1, hh⟩)
            · have heq : l' = l := by simpa using h1
              rw [heq, htn] at hh
              have : n' = n := by cases hh; rfl
              exact Or.inr (by simp [this])
        · intro p hp
          rw [hstep] at hp
          rcases List.mem_append.1 hp with h1 | h1
          · have hpn : p.name ≠ n := by
              intro h
              exact hnmem (h ▸ List.mem_map_of_mem Package.name h1)
            rw [ihv p h1, ← hfilter_skip p.name (by rw [htn]; intro h; cases h; exact hpn rfl)]
          · have heq : p = mkPackage n l := by simpa using h1
            rw [heq]
            show [mkVersionInfo l] = versionsFor (raw ++ [l]) (mkPackage n l).name
            have hname : (mkPackage n l).name = n := rfl
            rw [hname]
            unfold versionsFor
            rw [List.filter_append]
            have h1' : List.filter (fun l' => decide (truthyName l' = some n)) raw = [] := by
              rw [List.filter_eq_nil_iff]
              intro l' hl'
              simp only [decide_eq_true_eq]
              intro hh
              exact hnmem ((ihm n).2 ⟨l', hl', hh⟩)
            have h2' : List.filter (fun l' => decide (truthyName l' = some n)) [l] = [l] := by
              simp [htn]
            rw [h1', h2']
            rfl

theorem uniqueLibraries_char (raw : List RawLib) :
    (pkgNames (uniqueLibraries raw)).Nodup
  ∧ (∀ n, n ∈ pkgNames (uniqueLibraries raw) ↔ ∃ l ∈ raw, truthyName l = some n)
  ∧ (∀ p ∈ uniqueLibraries raw,
      p.versions = (versionsFor raw p.name).insertionSort semverLe) := by
  obtain ⟨hn, hm, hv⟩ := groupLibraries_char raw
  have hnames : pkgNames (uniqueLibraries raw) = pkgNames (groupLibraries raw) := by
    unfold uniqueLibraries pkgNames
    rw [List.map_map]
    exact List.map_congr_left (fun p _ => rfl)
  refine ⟨by rw [hnames]; exact hn, fun n => by rw [hnames]; exact hm n, ?_⟩
  intro p hp
  obtain ⟨q, hq, rfl⟩ := List.mem_map.1 hp
  show q.versions.insertionSort semverLe =
    (versionsFor raw (sortVersions q).name).insertionSort semverLe
  rw [hv q hq]
  rfl

/-- **C9**: grouping produces exactly one package per distinct usable name
(the name list has no duplicates, and a name occurs iff some raw entry
bears it — entries whose name is absent or empty are skipped and create
no package); each package's version list is the stable
`compareSemver`-sort of exactly the version records of the raw entries
bearing its name, hence non-empty and pairwise ordered newest-first. -/
theorem grouping_spec (raw : List RawLib) :
    (pkgNames (uniqueLibraries raw)).Nodup
  ∧ (∀ n, n ∈ pkgNames (uniqueLibraries raw) ↔ ∃ l ∈ raw, truthyName l = some n)
  ∧ (∀ p ∈ uniqueLibraries raw,
        p.versions = (versionsFor raw p.name).insertionSort semverLe
      ∧ p.versions ≠ []
      ∧ p.versions.Pairwise (fun a b => compareSemver a.version b.version ≤ 0)) := by
  obtain ⟨hn, hm, hv⟩ := uniqueLibraries_char raw
  refine ⟨hn, hm, ?_⟩
  intro p hp
  have hver := hv p hp
  refine ⟨hver, ?_, ?_⟩
  · have hpname : p.name ∈ pkgNames (uniqueLibraries raw) :=
      List.mem_map_of_mem Package.name hp
    obtain ⟨l, hl, htn⟩ := (hm p.name).1 hpname
    have hlv : mkVersionInfo l ∈ versionsFor raw p.name := by
      unfold versionsFor
      exact List.mem_map_of_mem _ (List.mem_filter.2 ⟨hl, by simp [htn]⟩)
    have : mkVersionInfo l ∈ p.versions := by
      rw [hver]
      exact (List.perm_insertionSort semverLe _).mem_iff.2 hlv
    exact List.ne_nil_of_mem this
  · rw [hver]
    haveI : IsTotal VersionInfo semverLe := ⟨semverLe_total⟩
    haveI : IsTrans VersionInfo semverLe := ⟨semverLe_trans⟩
    exact List.sorted_insertionSort semverLe (versionsFor raw p.name)

/-- Witness for C9 on the one-entry index `[rawFoo]`: its unique package
has the sorted one-element version list, non-empty and pairwise sorted. -/
theorem grouping_spec_witness :
    (sortVersions libFoo).versions =
        (versionsFor [rawFoo] (sortVersions libFoo).name).insertionSort semverLe
  ∧ (sortVersions libFoo).versions ≠ []
  ∧ (sortVersions libFoo).versions.Pairwise
      (fun a b => compareSemver a.version b.version ≤ 0) := by
  have h := (grouping_spec [rawFoo]).2.2 (sortVersions libFoo) (by decide)
  exact ⟨h.1, h.2.1, h.2.2⟩

/-! ### Per-package invariants through the pipeline -/

theorem groupLibraries_inv (P : Package → Prop)
    (hmk : ∀ n l, P (mkPackage n l))
    (hupd : ∀ p v, P p → P { p with versions := p.versions ++ [v] }) :
    ∀ raw, ∀ p ∈ groupLibraries raw, P p := by
  suffices h : ∀ raw m, (∀ p ∈ m, P p) → ∀ p ∈ List.foldl groupStep m raw, P p by
    intro raw p hp
    exact h raw [] (by intro q hq; cases hq) p hp
  intro raw
  induction raw with
  | nil => intro m hm p hp; exact hm p hp
  | cons l rest ih =>
    intro m hm p hp
    refine ih (groupStep m l) ?_ p hp
    intro q hq
    cases htn : truthyName l with
    | none =>
      unfold groupStep at hq
      rw [htn] at hq
      exact hm q hq
    | some n =>
      unfold groupStep at hq
      rw [htn] at hq
      by_cases hmem : m.any (fun p => p.name = n) = true
      · rw [show (match some n with
            | none => m
            | some n =>
              if m.any (fun p => p.name = n) = true then addVersion n (mkVersionInfo l) m
              else m ++ [mkPackage n l]) = addVersion n (mkVersionInfo l) m
          from if_pos hmem] at hq
        obtain ⟨q', hq', hor⟩ := mem_addVersion n (mkVersionInfo l) m q hq
        rcases hor with h | h
        · rw [h]; exact hm q' hq'
        · rw [h]; exact hupd q' _ (hm q' hq')
      · rw [show (match some n with
            | none => m
            | some n =>
              if m.any (fun p => p.name = n) = true then addVersion n (mkVersionInfo l) m
              else m ++ [mkPackage n l]) = m ++ [mkPackage n l]
          from if_neg hmem] at hq
        rcases List.mem_append.1 hq with h1 | h1
        · exact hm q h1
        · have heq : q = mkPackage n l := by simpa using h1
          rw [heq]
          exact hmk n l

theorem mkPackage_repository (n : String) (l : RawLib) :
    (mkPackage n l).repository = none
  ∨ ∃ ri, (mkPackage n l).repository = some (mkRepoUrl ri) := by
  have he : (mkPackage n l).repository =
      ((parseGitHubUrl l.website).orElse fun _ => parseGitHubUrl l.repository).map
        mkRepoUrl := rfl
  rw [he]
  cases ((parseGitHubUrl l.website).orElse fun _ => parseGitHubUrl l.repository) with
  | none => exact Or.inl rfl
  | some ri => exact Or.inr ⟨ri, rfl⟩

theorem mkRepoUrl_ne_empty (ri : RepoIdentity) : mkRepoUrl ri ≠ "" := by
  intro h
  have hl := congrArg String.length h
  rw [mkRepoUrl] at hl
  simp only [String.length_append] at hl
  have h1 : ("https://github.com/" : String).length = 19 := rfl
  have h2 : ("/" : String).length = 1 := rfl
  have h3 : ("" : String).length = 0 := rfl
  omega

theorem enrichOne_repository (fetch : RepoIdentity → Option GitHubData) (lib : Package) :
    (enrichOne fetch lib).repository = lib.repository := by
  cases h : lib.repoInfo with
  | none => simp only [enrichOne, h]
  | some ri =>
    cases hf : fetch ri with
    | none => simp only [enrichOne, h, hf]
    | some g => simp only [enrichOne, h, hf, applyGitHubData]

theorem enrichedLibraries_eq_map (fetch : RepoIdentity → Option GitHubData)
    (raw : List RawLib) :
    enrichedLibraries fetch raw = (uniqueLibraries raw).map (enrichOne fetch) := by
  unfold enrichedLibraries
  exact processInBatches_eq_map _ CONCURRENT_REQUESTS (by norm_num [CONCURRENT_REQUESTS]) _

theorem enrichedLibraries_repository (fetch : RepoIdentity → Option GitHubData)
    (raw : List RawLib) :
    ∀ p ∈ enrichedLibraries fetch raw,
      p.repository = none ∨ ∃ ri, p.repository = some (mkRepoUrl ri) := by
  intro p hp
  rw [enrichedLibraries_eq_map] at hp
  obtain ⟨q, hq, rfl⟩ := List.mem_map.1 hp
  rw [enrichOne_repository]
  obtain ⟨q', hq', rfl⟩ := List.mem_map.1 hq
  show (sortVersions q').repository = none ∨ _
  have hrep : (sortVersions q').repository = q'.repository := rfl
  rw [hrep]
  refine groupLibraries_inv
    (fun p => p.repository = none ∨ ∃ ri, p.repository = some (mkRepoUrl ri))
    mkPackage_repository (fun p v hp => hp) raw q' hq'

/-- **C2**: a package is in the final registry iff it survives enrichment
with a present (non-null) `repository` and `isArchived` not `true`; in
particular a never-enriched package (absent `isArchived`) with a
repository is retained, and the output never contains an archived or
repository-less package. -/
theorem registry_membership (fetch : RepoIdentity → Option GitHubData)
    (raw : List RawLib) (p : Package) :
    p ∈ generateRegistry fetch raw ↔
      p ∈ enrichedLibraries fetch raw
        ∧ p.repository.isSome = true ∧ p.isArchived ≠ some true := by
  unfold generateRegistry finalRegistry
  rw [(List.perm_insertionSort libLe _).mem_iff, List.mem_filter]
  constructor
  · rintro ⟨hmem, hkeep⟩
    unfold keepLib at hkeep
    rw [Bool.and_eq_true] at hkeep
    refine ⟨hmem, ?_, ?_⟩
    · cases hre : p.repository with
      | none => rw [hre] at hkeep; simp [jsTruthy] at hkeep
      | some s => rfl
    · intro h
      rw [h] at hkeep
      simp at hkeep
  · rintro ⟨hmem, hsome, harch⟩
    refine ⟨hmem, ?_⟩
    unfold keepLib
    rw [Bool.and_eq_true]
    constructor
    · rcases enrichedLibraries_repository fetch raw p hmem with h | ⟨ri, h⟩
      · rw [h] at hsome; cases hsome
      · rw [h]
        simp only [jsTruthy]
        simpa using mkRepoUrl_ne_empty ri
    · simpa using harch

/-- Witness for C2 at the concrete 404 run: the membership equivalence
instantiated at `pkg404`. -/
theorem registry_membership_witness :
    pkg404 ∈ generateRegistry fetch404oracle [rawFoo] ↔
      pkg404 ∈ enrichedLibraries fetch404oracle [rawFoo]
        ∧ pkg404.repository.isSome = true ∧ pkg404.isArchived ≠ some true :=
  registry_membership fetch404oracle [rawFoo] pkg404

/-! ### Enrichment field states (C4) -/

theorem fetchBody_range (env : FetchEnv) :
    ∀ fuel rc r s, fetchBody env rc fuel = .ok (r, s) →
      r = none ∨ r = some notFound404 ∨ ∃ j, r = some (mkGitHubData j) := by
  intro fuel
  induction fuel with
  | zero =>
    intro rc r s h
    simp only [fetchBody, Except.ok.injEq, Prod.mk.injEq] at h
    exact Or.inl h.1.symm
  | succ n ih =>
    intro rc r s h
    cases ha : env.attempts rc with
    | exn nm =>
      simp only [fetchBody, ha] at h
      cases h
    | response st re j =>
      simp only [fetchBody, ha] at h
      by_cases hrl : st = 403 ∨ st = 429
      · rw [if_pos hrl] at h
        by_cases hrc : MAX_RETRIES ≤ rc
        · rw [if_pos hrc] at h
          simp only [Except.ok.injEq, Prod.mk.injEq] at h
          exact Or.inl h.1.symm
        · rw [if_neg hrc] at h
          simp only [Except.ok.injEq, Prod.mk.injEq] at h
          cases h2 : fetchBody env (rc + 1) n with
          | ok r2 =>
            obtain ⟨r2a, r2b⟩ := r2
            rw [h2] at h
            rcases ih (rc + 1) r2a r2b h2 with h3 | h3 | ⟨jj, h3⟩
            · exact Or.inl (by rw [← h.1, h3])
            · exact Or.inr (Or.inl (by rw [← h.1, h3]))
            · exact Or.inr (Or.inr ⟨jj, by rw [← h.1, h3]⟩)
          | error e =>
            rw [h2] at h
            exact Or.inl h.1.symm
      · rw [if_neg hrl] at h
        by_cases h404 : st = 404
        · rw [if_pos h404] at h
          simp only [Except.ok.injEq, Prod.mk.injEq] at h
          exact Or.inr (Or.inl h.1.symm)
        · rw [if_neg h404] at h
          by_cases hok : statusOk st = true
          · rw [if_neg (by simp [hok])] at h
            cases j with
            | none => simp at h
            | some jj =>
              simp only [Except.ok.injEq, Prod.mk.injEq] at h
              exact Or.inr (Or.inr ⟨jj, h.1.symm⟩)
          · rw [if_pos (by simpa using hok)] at h
            simp at h

/-- Counterexample to C4 as stated: after a run whose single package's
repository lookup answered 404, that package is in a mixed state — `stars`
and `isArchived` are populated while the other five enrichment fields are
absent — so the all-absent-or-all-populated invariant fails. -/
theorem enrichment_allOrNothing_counterexample :
    pkg404 ∈ enrichedLibraries fetch404oracle [rawFoo] ∧ ¬ allOrNothing pkg404 :=
  ⟨by decide, by decide⟩

theorem groupLibraries_enrichAbsent (raw : List RawLib) :
    ∀ p ∈ groupLibraries raw, enrichAbsent p :=
  groupLibraries_inv enrichAbsent
    (fun _ _ => ⟨rfl, rfl, rfl, rfl, rfl, rfl, rfl⟩)
    (fun _ _ hp => hp)
    raw

/-- **C4 (amended)**: after enrichment, each package's seven enrichment
fields are in one of exactly three states: all absent (no repository
identity or a failed fetch), all populated (successful fetch), or — when
the lookup returned "not found" — only `stars = 0` and `isArchived = true`
populated with the remaining five fields absent.  The hypothesis that
every fetched object is either the 404 result or a parsed-JSON result is
exactly the range of `fetchGitHubData`, restated as the second conjunct. -/
theorem enrichment_states_spec (fetch : RepoIdentity → Option GitHubData)
    (raw : List RawLib)
    (hfetch : ∀ ri g, fetch ri = some g → g = notFound404 ∨ ∃ j, g = mkGitHubData j) :
    (∀ p ∈ enrichedLibraries fetch raw,
        enrichAbsent p ∨ enrichPresent p ∨ enrichNotFound p)
  ∧ (∀ env ri g, fetchResult env ri = some g →
        g = notFound404 ∨ ∃ j, g = mkGitHubData j) := by
  constructor
  · intro p hp
    rw [enrichedLibraries_eq_map] at hp
    obtain ⟨q, hq, rfl⟩ := List.mem_map.1 hp
    obtain ⟨q', hq', rfl⟩ := List.mem_map.1 hq
    have habs : enrichAbsent (sortVersions q') := groupLibraries_enrichAbsent raw q' hq'
    cases hri : (sortVersions q').repoInfo with
    | none =>
      left
      simp only [enrichOne, hri]
      exact habs
    | some ri =>
      cases hf : fetch ri with
      | none =>
        left
        simp only [enrichOne, hri, hf]
        exact habs
      | some g =>
        rcases hfetch ri g hf with hg | ⟨j, hg⟩
        · right; right
          simp only [enrichOne, hri, hf, hg, applyGitHubData, notFound404]
          exact ⟨rfl, rfl, rfl, rfl, rfl, rfl, rfl⟩
        · right; left
          simp only [enrichOne, hri, hf, hg, applyGitHubData, mkGitHubData]
          refine ⟨by simp, by simp, by simp, by simp, by simp, by simp, by simp⟩
  · intro env ri g h
    unfold fetchResult fetchGitHubData at h
    cases hb : fetchBody env 0 (MAX_RETRIES + 1) with
    | ok r =>
      obtain ⟨ra, rb⟩ := r
      rw [hb] at h
      simp only at h
      rcases fetchBody_range env (MAX_RETRIES + 1) 0 ra rb hb with h3 | h3 | ⟨jj, h3⟩
      · rw [h3] at h; cases h
      · rw [h3] at h
        exact Or.inl (by injection h with h; rw [h])
      · rw [h3] at h
        exact Or.inr ⟨jj, by injection h with h; rw [h]⟩
    | error e =>
      rw [hb] at h
      simp only at h
      cases h

/-- Witness for C4 (amended) at the 404 run: the single enriched package
is in the not-found state. -/
theorem enrichment_states_witness :
    enrichAbsent pkg404 ∨ enrichPresent pkg404 ∨ enrichNotFound pkg404 :=
  (enrichment_states_spec fetch404oracle [rawFoo]
    (fun ri g hg => Or.inl (Option.some.inj hg).symm)).1
    pkg404 (by decide)

/-! ### Final sort order (C1) -/

theorem cmpLibs_le_iff (a b : Package) :
    cmpLibs a b ≤ 0 ↔
      (b.stars.getD 0 < a.stars.getD 0
        ∨ (a.stars.getD 0 = b.stars.getD 0 ∧ localeCompare a.name b.name ≤ 0)) := by
  simp only [cmpLibs]
  split_ifs with h <;> omega

theorem libLe_total (a b : Package) : libLe a b ∨ libLe b a := by
  unfold libLe
  rw [cmpLibs_le_iff, cmpLibs_le_iff]
  rcases localeCompare_le_total a.name b.name with h | h <;> omega

theorem libLe_trans (a b c : Package) (hab : libLe a b) (hbc : libLe b c) : libLe a c := by
  unfold libLe at hab hbc ⊢
  rw [cmpLibs_le_iff] at hab hbc ⊢
  rcases hab with h1 | ⟨h1, h2⟩
  · rcases hbc with h3 | ⟨h3, h4⟩ <;> omega
  · rcases hbc with h3 | ⟨h3, h4⟩
    · omega
    · exact Or.inr ⟨by omega, localeCompare_le_trans h2 h4⟩

/-- **C1 (amended)**: the final registry is sorted by stars descending
(absent `stars` counting as 0); adjacent star ties satisfy
`localeCompare name[i] name[i+1] ≤ 0`, i.e. ascending in the locale
collation order used by the code (case-insensitive primary comparison,
lower case before upper case on case-only ties) — not in case-sensitive
code-point order. -/
theorem finalRegistry_sorted (libs : List Package) (i : Nat)
    (hi : i + 1 < (finalRegistry libs).length) :
    ((finalRegistry libs).get ⟨i + 1, hi⟩).stars.getD 0 ≤
      ((finalRegistry libs).get ⟨i, Nat.lt_of_succ_lt hi⟩).stars.getD 0
  ∧ (((finalRegistry libs).get ⟨i, Nat.lt_of_succ_lt hi⟩).stars.getD 0 =
        ((finalRegistry libs).get ⟨i + 1, hi⟩).stars.getD 0 →
      localeCompare ((finalRegistry libs).get ⟨i, Nat.lt_of_succ_lt hi⟩).name
        ((finalRegistry libs).get ⟨i + 1, hi⟩).name ≤ 0) := by
  have hsorted : (finalRegistry libs).Pairwise libLe := by
    unfold finalRegistry
    haveI : IsTotal Package libLe := ⟨libLe_total⟩
    haveI : IsTrans Package libLe := ⟨libLe_trans⟩
    exact List.sorted_insertionSort libLe (libs.filter keepLib)
  have h := List.pairwise_iff_get.1 hsorted ⟨i, Nat.lt_of_succ_lt hi⟩ ⟨i + 1, hi⟩
    ((Fin.mk_lt_mk).2 (Nat.lt_succ_self i))
  unfold libLe at h
  rw [cmpLibs_le_iff] at h
  constructor
  · rcases h with h | ⟨h, _⟩ <;> omega
  · intro he
    rcases h with h | ⟨_, h2⟩
    · omega
    · exact h2

/-- Witness for C1 (amended): the registry generated from the two
entries `a` and `B` (both enriched with one star) has two elements, and
its adjacent pair satisfies the star/locale ordering. -/
theorem finalRegistry_sorted_witness :
    ((generateRegistry fetchStar1 [rawA, rawB]).get
        ⟨1, by decide⟩).stars.getD 0 ≤
      ((generateRegistry fetchStar1 [rawA, rawB]).get ⟨0, by decide⟩).stars.getD 0
  ∧ (((generateRegistry fetchStar1 [rawA, rawB]).get ⟨0, by decide⟩).stars.getD 0 =
        ((generateRegistry fetchStar1 [rawA, rawB]).get ⟨1, by decide⟩).stars.getD 0 →
      localeCompare ((generateRegistry fetchStar1 [rawA, rawB]).get ⟨0, by decide⟩).name
        ((generateRegistry fetchStar1 [rawA, rawB]).get ⟨1, by decide⟩).name ≤ 0) :=
  finalRegistry_sorted (enrichedLibraries fetchStar1 [rawA, rawB]) 0 (by decide)

/-- Counterexample to C1 as stated: with packages `a` and `B` tied on
stars, the code's `localeCompare` tie-break places `"a"` before `"B"`
(locale order), but `"a" ≤ "B"` is false in case-sensitive code-point
order, so the claimed sortedness property fails on this output. -/
theorem sortedAsClaimed_counterexample :
    ¬ sortedAsClaimed (generateRegistry fetchStar1 [rawA, rawB]) := by
  intro h
  unfold sortedAsClaimed at h
  have h0 := h 0 (by decide)
  exact absurd (h0.2 (by decide)) (by decide)
